import Mathlib

/-!
Verification of the git-user-config extension (`src/index.ts`).

The file shallowly embeds the profile store and the identity-synchronization
routines of the source: profiles are records of name, email and an optional
npm registry; external command outcomes are passed in explicitly (an
`Option String` for a query's stdout, `Bool` flags for a set-command's
success); persisted state is a small JSON-like value type.
-/

namespace GitUserConfig

/-- A stored profile: `{ name: string, email: string, registry?: string }`
(src/index.ts line 5 and 7). The optional `registry` is `Option String`,
`none` standing for the absent (`undefined`) field. -/
structure Profile where
  name : String
  email : String
  registry : Option String
deriving DecidableEq, Repr

/-- The predicate `u => u.name === name && u.email === email` used by
`setGitUserInfo` (line 52), `customSetGitUserInfo` (line 95), the delete
handler (line 162) and `updateStatusBar` (line 206). -/
def matchesKey (name email : String) (u : Profile) : Bool :=
  u.name == name && u.email == email

/-- The store-update part of `setGitUserInfo` (src/index.ts lines 52-57):
if no stored profile has the given (name, email), prepend a fresh profile
and keep only the first 10 (`gitUsers.unshift(...); gitUsers.slice(0, 10)`),
returning `true` for "inserted" (a save happens exactly then); otherwise
leave the list alone and return `false`. -/
def upsert (name email : String) (registry : Option String)
    (users : List Profile) : List Profile × Bool :=
  if users.any (matchesKey name email) then
    (users, false)
  else
    ((⟨name, email, registry⟩ :: users).take 10, true)

/-- One upsert request: a name, an email and an optional registry. -/
def UpsertOp := String × String × Option String

/-- Run a sequence of upserts (oldest first) starting from a given list,
keeping only the resulting list. -/
def runUpserts (start : List Profile) (ops : List UpsertOp) : List Profile :=
  ops.foldl (fun l op => (upsert op.1 op.2.1 op.2.2 l).1) start

/-- The store invariant of the spec: at most 10 entries, and no two entries
share the (name, email) pair. -/
def GoodStore (l : List Profile) : Prop :=
  l.length ≤ 10 ∧ l.Pairwise (fun a b => ¬(a.name = b.name ∧ a.email = b.email))

theorem any_matchesKey_false {name email : String} {users : List Profile}
    (h : users.any (matchesKey name email) = false) :
    ∀ u ∈ users, ¬(u.name = name ∧ u.email = email) := by
  intro u hu
  have := List.any_eq_false.mp h u hu
  simp [matchesKey] at this
  intro hc
  rcases hc with ⟨h1, h2⟩
  exact absurd h2 (this h1)

theorem upsert_preserves_good (name email : String) (registry : Option String)
    (users : List Profile) (h : GoodStore users) :
    GoodStore (upsert name email registry users).1 := by
  rcases h with ⟨hlen, hpair⟩
  unfold upsert
  by_cases hmem : users.any (matchesKey name email)
  · simp only [hmem, if_true]
    exact ⟨hlen, hpair⟩
  · simp only [Bool.not_eq_true] at hmem
    simp only [hmem, Bool.false_eq_true, if_false]
    constructor
    · exact List.length_take_le 10 _
    · apply List.Pairwise.sublist (List.take_sublist 10 _)
      constructor
      · intro u hu
        have := any_matchesKey_false hmem u hu
        simp only [Profile.mk.injEq] at *
        intro hc
        exact this ⟨hc.1.symm, hc.2.symm⟩
      · exact hpair

/-- C1: every sequence of upserts starting from the empty list yields a list
of at most 10 entries with pairwise distinct (name, email) pairs. -/
theorem upsertSeq_good (ops : List UpsertOp) : GoodStore (runUpserts [] ops) := by
  suffices h : ∀ (start : List Profile), GoodStore start → GoodStore (runUpserts start ops) by
    exact h [] ⟨by simp, List.Pairwise.nil⟩
  induction ops with
  | nil => intro start h; exact h
  | cons op rest ih =>
      intro start h
      exact ih _ (upsert_preserves_good op.1 op.2.1 op.2.2 start h)

theorem take_ten_cons (p : Profile) (users : List Profile) :
    ((p :: users).take 10) = p :: users.take 9 := by
  rfl

theorem upsert_fresh_eq (name email : String) (registry : Option String)
    (users : List Profile) (h : users.any (matchesKey name email) = false) :
    (upsert name email registry users).1 = ⟨name, email, registry⟩ :: users.take 9 ∧
    (upsert name email registry users).2 = true := by
  unfold upsert
  simp only [h, Bool.false_eq_true, if_false]
  exact ⟨take_ten_cons _ _, trivial⟩

theorem upsert_existing_eq (name email : String) (registry : Option String)
    (users : List Profile) (h : users.any (matchesKey name email) = true) :
    upsert name email registry users = (users, false) := by
  unfold upsert
  simp only [h, if_true]

/-- Claim C2 (counterexample): starting from a list that already holds the key
("A", "a@x") with registry "r0", `upsert "A" "a@x" "r1"` then
`upsert "A" "a@x" "r2"` leaves the old entry: the single entry with that key
still carries registry "r0", not the claimed "r1". -/
theorem upsert_twice_counterexample :
    ¬ ((upsert "A" "a@x" (some "r2")
          (upsert "A" "a@x" (some "r1") [⟨"A", "a@x", some "r0"⟩]).1).1.filter
            (matchesKey "A" "a@x") = [⟨"A", "a@x", some "r1"⟩]) := by
  decide

/-- Claim C2 (amended: the starting list holds no entry with key (n, e)):
`upsert n e r` followed by `upsert n e r2` with `r2 ≠ r` returns
`inserted = false` from the second call, leaves the list of the first call
unchanged, and that list's unique entry with key (n, e) carries registry `r`. -/
theorem upsert_twice_keeps_registry (n e : String) (r r2 : Option String)
    (users : List Profile)
    (hfresh : users.any (matchesKey n e) = false)
    (hne : r2 ≠ r) :
    (upsert n e r2 (upsert n e r users).1).2 = false ∧
    (upsert n e r2 (upsert n e r users).1).1 = (upsert n e r users).1 ∧
    (upsert n e r users).1.filter (matchesKey n e) = [⟨n, e, r⟩] := by
  obtain ⟨h1, _⟩ := upsert_fresh_eq n e r users hfresh
  have hhead : matchesKey n e ⟨n, e, r⟩ = true := by
    simp [matchesKey]
  have hany : ((upsert n e r users).1.any (matchesKey n e)) = true := by
    rw [h1]
    simp [List.any_cons, hhead]
  have hmem : ∀ u ∈ users.take 9, matchesKey n e u = false := by
    intro u hu
    simpa using List.any_eq_false.mp hfresh u (List.mem_of_mem_take hu)
  have h2 := upsert_existing_eq n e r2 ((upsert n e r users).1) hany
  refine ⟨?_, ?_, ?_⟩
  · rw [h2]
  · rw [h2]
  · rw [h1]
    rw [List.filter_cons_of_pos hhead]
    have : (users.take 9).filter (matchesKey n e) = [] := by
      apply List.filter_eq_nil_iff.mpr
      intro u hu
      simp [hmem u hu]
    rw [this]

/-- Witness for the amended C2 at a concrete input: two upserts of
("A", "a@x") with registries "alias1" then "alias2" on the empty list. -/
theorem upsert_twice_keeps_registry_witness :
    (upsert "A" "a@x" (some "alias2")
        (upsert "A" "a@x" (some "alias1") []).1).2 = false ∧
    (upsert "A" "a@x" (some "alias2")
        (upsert "A" "a@x" (some "alias1") []).1).1 =
      (upsert "A" "a@x" (some "alias1") []).1 ∧
    (upsert "A" "a@x" (some "alias1") []).1.filter (matchesKey "A" "a@x") =
      [⟨"A", "a@x", some "alias1"⟩] :=
  upsert_twice_keeps_registry "A" "a@x" (some "alias1") (some "alias2") []
    (by decide) (by decide)

/-- The JavaScript line terminators, which `.` in a regular expression
(without the `s` flag) does not match. -/
def isLineTerm (c : Char) : Bool :=
  c = '\n' || c = '\r' || c = Char.ofNat 0x2028 || c = Char.ofNat 0x2029

/-- Strip a literal pattern from the front of a character list, returning the
remainder when the list starts with the pattern. -/
def stripL : List Char → List Char → Option (List Char)
  | [], l => some l
  | _ :: _, [] => none
  | p :: ps, c :: cs => if c = p then stripL ps cs else none

/-- The characters of the literal "http://". -/
def httpMarker : List Char := ['h', 't', 't', 'p', ':', '/', '/']

/-- The characters of the literal "https://". -/
def httpsMarker : List Char := ['h', 't', 't', 'p', 's', ':', '/', '/']

/-- `isUrl` (src/index.ts lines 60-63): `/^https?:\/\/.+/.test(str)`. The
regular expression is compiled by hand: the string must start with
"http://" or "https://" and `.+` must then match at least one character,
where `.` matches any character other than a line terminator (the regular
expression has no `s` or `m` flag and no end anchor). -/
def isUrl (s : String) : Bool :=
  match stripL httpsMarker s.data with
  | some (c :: _) => !isLineTerm c
  | some [] => false
  | none =>
    match stripL httpMarker s.data with
    | some (c :: _) => !isLineTerm c
    | some [] => false
    | none => false

/-- The two external registry commands `setNpmRegistry` can run:
`npm config set registry "<url>"` or `nrm use "<alias name>"`. -/
inductive NpmCmd where
  | npmSetRegistry : String → NpmCmd
  | nrmUse : String → NpmCmd
deriving DecidableEq, Repr

/-- `setNpmRegistry` (src/index.ts lines 65-81): a URL-shaped value goes to
`npm config set registry`, anything else to `nrm use`. The exec callback
ignores failure either way. -/
def setNpmRegistry (registry : String) : NpmCmd :=
  if isUrl registry then NpmCmd.npmSetRegistry registry else NpmCmd.nrmUse registry

/-- "Starts with 'http://' or 'https://'", the wording of the claim. -/
def startsWithHttp (s : String) : Bool :=
  (stripL httpMarker s.data).isSome || (stripL httpsMarker s.data).isSome

theorem stripL_eq_some_iff (p : List Char) :
    ∀ (l r : List Char), stripL p l = some r ↔ l = p ++ r := by
  induction p with
  | nil =>
      intro l r
      simp [stripL, eq_comm]
  | cons x xs ih =>
      intro l r
      cases l with
      | nil => simp [stripL]
      | cons c cs =>
          by_cases hc : c = x
          · subst hc
            simp only [stripL, if_pos rfl, List.cons_append, List.cons.injEq, true_and]
            exact ih cs r
          · simp only [stripL, if_neg hc, List.cons_append, List.cons.injEq]
            constructor
            · intro h; cases h
            · intro h; exact absurd h.1 hc

/-- Claim C3 (counterexample): the value "http://" starts with the stated
prefix yet is dispatched to the `nrm use` command, because the regular
expression demands at least one character after the scheme. -/
theorem setNpmRegistry_counterexample :
    startsWithHttp "http://" = true ∧
    setNpmRegistry "http://" = NpmCmd.nrmUse "http://" := by
  constructor
  · decide
  · decide

/-- Claim C3 (amended): a registry value is dispatched to the direct
set-registry-URL command if and only if it starts with "http://" or
"https://" followed by at least one character that is not a line
terminator; every other value is dispatched to the `nrm use` command. -/
theorem setNpmRegistry_dispatch (r : String) :
    (setNpmRegistry r = NpmCmd.npmSetRegistry r ↔
      ∃ c rest, (r.data = httpMarker ++ c :: rest ∨ r.data = httpsMarker ++ c :: rest) ∧
        isLineTerm c = false) ∧
    (setNpmRegistry r = NpmCmd.npmSetRegistry r ∨ setNpmRegistry r = NpmCmd.nrmUse r) := by
  have hdisp : setNpmRegistry r = NpmCmd.npmSetRegistry r ↔ isUrl r = true := by
    unfold setNpmRegistry
    by_cases h : isUrl r
    · simp [h]
    · simp [h]
  constructor
  · rw [hdisp]
    unfold isUrl
    rcases hs : stripL httpsMarker r.data with _ | rs
    · rcases hh : stripL httpMarker r.data with _ | rh
      · simp only []
        constructor
        · intro h; cases h
        · rintro ⟨c, rest, hor, -⟩
          rcases hor with h | h
          · rw [(stripL_eq_some_iff httpMarker r.data (c :: rest)).mpr h] at hh
            cases hh
          · rw [(stripL_eq_some_iff httpsMarker r.data (c :: rest)).mpr h] at hs
            cases hs
      · have hre := (stripL_eq_some_iff httpMarker r.data rh).mp hh
        cases rh with
        | nil =>
            simp only []
            constructor
            · intro h; cases h
            · rintro ⟨c, rest, hor, -⟩
              rcases hor with h | h
              · rw [hre] at h
                simp at h
              · rw [(stripL_eq_some_iff httpsMarker r.data (c :: rest)).mpr h] at hs
                cases hs
        | cons c0 cs0 =>
            simp only []
            constructor
            · intro h
              refine ⟨c0, cs0, Or.inl hre, ?_⟩
              simpa using h
            · rintro ⟨c, rest, hor, hterm⟩
              rcases hor with h | h
              · rw [hre] at h
                have : c0 = c := by
                  have := (List.append_inj h (by rfl)).2
                  exact (List.cons.injEq _ _ _ _ ▸ this).1
                rw [this]
                simp [hterm]
              · rw [(stripL_eq_some_iff httpsMarker r.data (c :: rest)).mpr h] at hs
                cases hs
    · have hre := (stripL_eq_some_iff httpsMarker r.data rs).mp hs
      have hh : stripL httpMarker r.data = none := by
        rcases hhh : stripL httpMarker r.data with _ | rh
        · rfl
        · have h2 := (stripL_eq_some_iff httpMarker r.data rh).mp hhh
          rw [hre] at h2
          simp [httpMarker, httpsMarker] at h2
      cases rs with
      | nil =>
          simp only []
          constructor
          · intro h; cases h
          · rintro ⟨c, rest, hor, -⟩
            rcases hor with h | h
            · rw [(stripL_eq_some_iff httpMarker r.data (c :: rest)).mpr h] at hh
              cases hh
            · rw [hre] at h
              simp at h
      | cons c0 cs0 =>
          simp only []
          constructor
          · intro h
            refine ⟨c0, cs0, Or.inr hre, ?_⟩
            simpa using h
          · rintro ⟨c, rest, hor, hterm⟩
            rcases hor with h | h
            · rw [(stripL_eq_some_iff httpMarker r.data (c :: rest)).mpr h] at hh
              cases hh
            · rw [hre] at h
              have : c0 = c := by
                have := (List.append_inj h (by rfl)).2
                exact (List.cons.injEq _ _ _ _ ▸ this).1
              rw [this]
              simp [hterm]
  · unfold setNpmRegistry
    by_cases h : isUrl r
    · simp [h]
    · simp [h]

/-- A JSON-like value, the domain of what `context.globalState.get` can hand
back for the storage key. `jnull` stands for JSON null. -/
inductive JVal where
  | jnull : JVal
  | jbool : Bool → JVal
  | jnum : Int → JVal
  | jstr : String → JVal
  | jarr : List JVal → JVal
  | jobj : List (String × JVal) → JVal

/-- JavaScript truthiness of a `JVal` (`stored && ...` short-circuits on a
falsy value). -/
def truthy : JVal → Bool
  | JVal.jnull => false
  | JVal.jbool b => b
  | JVal.jnum n => n != 0
  | JVal.jstr s => s != ""
  | JVal.jarr _ => true
  | JVal.jobj _ => true

/-- `Array.isArray`. -/
def isArrayJ : JVal → Bool
  | JVal.jarr _ => true
  | _ => false

/-- `.length` of an array value (only consulted after `Array.isArray`). -/
def jLength : JVal → Nat
  | JVal.jarr xs => xs.length
  | _ => 0

/-- `loadGitUsers` (src/index.ts lines 32-36): the stored value becomes the
profile list when it is truthy, an array and non-empty, else the default
empty list (`DEFAULT_USERS.slice()` of the empty `DEFAULT_USERS`). `none`
stands for an absent key (`undefined`). -/
def loadGitUsers (stored : Option JVal) : JVal :=
  match stored with
  | none => JVal.jarr []
  | some v =>
      if truthy v && (isArrayJ v && decide (0 < jLength v)) then v
      else JVal.jarr []

/-- Field presence in a JSON object, `fields.any (key match)`. -/
def hasField (fields : List (String × JVal)) (k : String) : Bool :=
  fields.any (fun p => p.1 == k)

/-- Modelled from the spec: a well-formed persisted element is "an object
with `name`/`email`" fields. The source has no such per-element check; this
definition states the claim's notion of well-formedness. -/
def wellFormedElem : JVal → Bool
  | JVal.jobj fs => hasField fs "name" && hasField fs "email"
  | _ => false

/-- Modelled from the spec: a well-formed persisted value is "a sequence of
objects with `name`/`email`". -/
def wellFormedUsers : JVal → Bool
  | JVal.jarr xs => xs.all wellFormedElem
  | _ => false

/-- Claim C4 (counterexample): the non-empty array `[42]` is not well-formed
(its element is no object with name and email), yet `loadGitUsers` hands it
back unchanged instead of the empty list: the source checks only
truthiness, `Array.isArray` and `length > 0`, never the elements. -/
theorem loadGitUsers_counterexample :
    wellFormedUsers (JVal.jarr [JVal.jnum 42]) = false ∧
    loadGitUsers (some (JVal.jarr [JVal.jnum 42])) = JVal.jarr [JVal.jnum 42] ∧
    JVal.jarr [JVal.jnum 42] ≠ JVal.jarr [] := by
  refine ⟨rfl, rfl, ?_⟩
  intro h
  simp at h

/-- Claim C4 (amended): `loadGitUsers` returns the persisted value exactly
when it is present, an array and non-empty — with no element-level
well-formedness validation — and the empty list in every other case; being a
total function it never fails. -/
theorem loadGitUsers_cases (stored : Option JVal) :
    (∀ v, stored = some v → isArrayJ v = true → 0 < jLength v →
        loadGitUsers stored = v) ∧
    (∀ v, stored = some v → isArrayJ v = false → loadGitUsers stored = JVal.jarr []) ∧
    (∀ v, stored = some v → jLength v = 0 → loadGitUsers stored = JVal.jarr []) ∧
    (stored = none → loadGitUsers stored = JVal.jarr []) := by
  refine ⟨?_, ?_, ?_, ?_⟩
  · rintro v rfl harr hlen
    have htru : truthy v = true := by
      cases v <;> simp_all [isArrayJ, truthy]
    unfold loadGitUsers
    simp [htru, harr, hlen]
  · rintro v rfl harr
    unfold loadGitUsers
    simp [harr]
  · rintro v rfl hlen
    unfold loadGitUsers
    simp [hlen]
  · rintro rfl
    rfl

/-- Witness for the amended C4 at concrete inputs: a non-empty array is
returned as is, a non-array and an empty array degrade to the empty list. -/
theorem loadGitUsers_cases_witness :
    loadGitUsers (some (JVal.jarr [JVal.jstr "x"])) = JVal.jarr [JVal.jstr "x"] ∧
    loadGitUsers (some (JVal.jstr "oops")) = JVal.jarr [] ∧
    loadGitUsers (some (JVal.jarr [])) = JVal.jarr [] := by
  refine ⟨?_, ?_, ?_⟩
  · exact (loadGitUsers_cases (some (JVal.jarr [JVal.jstr "x"]))).1
      (JVal.jarr [JVal.jstr "x"]) rfl rfl (by simp [jLength])
  · exact (loadGitUsers_cases (some (JVal.jstr "oops"))).2.1
      (JVal.jstr "oops") rfl rfl
  · exact (loadGitUsers_cases (some (JVal.jarr []))).2.2.1
      (JVal.jarr []) rfl rfl

/-- The outcomes of the external set-commands an apply runs: whether
`git config --global user.name`, `git config --global user.email` and the
npm/nrm registry command each succeeded. The source's exec callbacks
(src/index.ts lines 39-43, 68-72, 75-79) discard the error argument, so
nothing downstream may depend on these. -/
structure ExtOutcomes where
  nameCmdOk : Bool
  emailCmdOk : Bool
  npmCmdOk : Bool
deriving DecidableEq, Repr

/-- What one call of `setGitUserInfo` does: the new in-memory list, whether
`saveGitUsers` ran (it runs exactly on a fresh insert), the external git
commands attempted, the registry command attempted, and the information
message shown. -/
structure ApplyResult where
  users : List Profile
  saved : Bool
  gitCmds : List String
  npmCmd : Option NpmCmd
  message : Option String
deriving DecidableEq, Repr

/-- The confirmation text of src/index.ts line 58. -/
def switchMessage (name email : String) (registry : Option String) : String :=
  "已切换为: " ++ name ++ " <" ++ email ++ "> " ++
    (match registry with
     | some r => if r != "" then "| npm源: " ++ r else ""
     | none => "")

/-- `setGitUserInfo` (src/index.ts lines 37-59): set the git name, then the
email (both fire-and-forget), run the registry command when `registry` is
truthy, upsert into the list (saving exactly when inserted), and always show
the switch confirmation. The external outcomes `ext` are taken as input and
— like the source's ignored callback errors — never consulted. -/
def setGitUserInfo (ext : ExtOutcomes) (name email : String)
    (registry : Option String) (users : List Profile) : ApplyResult :=
  let gitCmds := ["git config --global user.name \"" ++ name ++ "\"",
                  "git config --global user.email \"" ++ email ++ "\""]
  let npmCmd := match registry with
    | some r => if r != "" then some (setNpmRegistry r) else none
    | none => none
  let p := upsert name email registry users
  ⟨p.1, p.2, gitCmds, npmCmd, some (switchMessage name email registry)⟩

/-- Claim C5: the external outcomes never influence `setGitUserInfo` — for
any two outcome combinations the whole result agrees, the upsert on the
stored list is attempted regardless, and the "switched" confirmation is
always emitted. -/
theorem setGitUserInfo_ignores_failures (ext ext2 : ExtOutcomes)
    (name email : String) (registry : Option String) (users : List Profile) :
    setGitUserInfo ext name email registry users =
      setGitUserInfo ext2 name email registry users ∧
    (setGitUserInfo ext name email registry users).users =
      (upsert name email registry users).1 ∧
    (setGitUserInfo ext name email registry users).saved =
      (upsert name email registry users).2 ∧
    (setGitUserInfo ext name email registry users).message =
      some (switchMessage name email registry) := by
  exact ⟨rfl, rfl, rfl, rfl⟩

/-- Claim C6: upserting a fresh (name, email) into a full list of 10
pairwise-distinct profiles keeps the cap: the result is the new profile in
front of the first 9 old entries — which are exactly all old entries but the
last — so precisely the oldest entry is evicted. -/
theorem upsert_evicts_oldest (name email : String) (registry : Option String)
    (users : List Profile)
    (hlen : users.length = 10)
    (hdist : users.Pairwise (fun a b => ¬(a.name = b.name ∧ a.email = b.email)))
    (hfresh : users.any (matchesKey name email) = false) :
    (upsert name email registry users).1 = ⟨name, email, registry⟩ :: users.take 9 ∧
    users.take 9 = users.dropLast ∧
    (upsert name email registry users).1.length = 10 ∧
    (upsert name email registry users).2 = true := by
  obtain ⟨h1, h2⟩ := upsert_fresh_eq name email registry users hfresh
  have htake : users.take 9 = users.dropLast := by
    rw [List.dropLast_eq_take, hlen]
  refine ⟨h1, htake, ?_, h2⟩
  rw [h1]
  simp [List.length_take, hlen]

/-- The ten distinct profiles of the C6 witness. -/
def tenProfiles : List Profile :=
  [⟨"u0", "e0", none⟩, ⟨"u1", "e1", none⟩, ⟨"u2", "e2", none⟩,
   ⟨"u3", "e3", none⟩, ⟨"u4", "e4", none⟩, ⟨"u5", "e5", none⟩,
   ⟨"u6", "e6", none⟩, ⟨"u7", "e7", none⟩, ⟨"u8", "e8", none⟩,
   ⟨"u9", "e9", none⟩]

/-- Witness for C6: an 11th distinct profile pushed onto ten concrete ones. -/
theorem upsert_evicts_oldest_witness :
    (upsert "new" "new@x" (some "taobao") tenProfiles).1 =
      ⟨"new", "new@x", some "taobao"⟩ :: tenProfiles.take 9 ∧
    tenProfiles.take 9 = tenProfiles.dropLast ∧
    (upsert "new" "new@x" (some "taobao") tenProfiles).1.length = 10 ∧
    (upsert "new" "new@x" (some "taobao") tenProfiles).2 = true :=
  upsert_evicts_oldest "new" "new@x" (some "taobao") tenProfiles
    (by decide) (by decide) (by decide)

/-- The sentinel `'未知'` ("unknown") of src/index.ts lines 13-14. -/
def unknownSentinel : String := "未知"

/-- The characters `String.prototype.trim` removes: JavaScript WhiteSpace
and LineTerminator code points (the common ones). -/
def isJsWhitespace (c : Char) : Bool :=
  c = ' ' || c = '\t' || c = '\n' || c = '\r' ||
  c = Char.ofNat 11 || c = Char.ofNat 12 || c = Char.ofNat 160 ||
  c = Char.ofNat 0xFEFF || c = Char.ofNat 0x2028 || c = Char.ofNat 0x2029

/-- `stdout.trim()`: drop whitespace from both ends. -/
def jsTrim (s : String) : String :=
  String.mk (((s.data.dropWhile isJsWhitespace).reverse.dropWhile isJsWhitespace).reverse)

/-- `execPromise` (src/index.ts lines 10-16): resolve with the sentinel on
command failure (`err` non-null, modelled as `none`), else with
`stdout.trim() || '未知'` — the trimmed output when non-empty, the sentinel
when empty. The promise only ever resolves, never rejects. -/
def execPromise (result : Option String) : String :=
  match result with
  | none => unknownSentinel
  | some stdout => if jsTrim stdout != "" then jsTrim stdout else unknownSentinel

/-- `getGitUserInfo` (src/index.ts lines 18-22): the two identity
sub-queries, each an independent `execPromise`. -/
def getGitUserInfo (nameRes emailRes : Option String) : String × String :=
  (execPromise nameRes, execPromise emailRes)

/-- `getNpmRegistry` (src/index.ts lines 24-26). -/
def getNpmRegistry (res : Option String) : String := execPromise res

theorem execPromise_spec (res : Option String) :
    (∀ s, res = some s → jsTrim s ≠ "" → execPromise res = jsTrim s) ∧
    (res = none → execPromise res = unknownSentinel) ∧
    (∀ s, res = some s → jsTrim s = "" → execPromise res = unknownSentinel) := by
  refine ⟨?_, ?_, ?_⟩
  · rintro s rfl hne
    unfold execPromise
    simp [hne]
  · rintro rfl
    rfl
  · rintro s rfl he
    unfold execPromise
    simp [he]

/-- Claim C7: each of the three active-state sub-queries — identity name,
identity email, current registry — resolves to the trimmed stdout of its
command when the command succeeds with non-empty trimmed output, and to the
sentinel '未知' when the command fails or its trimmed output is empty; being
total functions they never throw. -/
theorem subqueries_resolve (nameRes emailRes regRes : Option String) :
    ((∀ s, nameRes = some s → jsTrim s ≠ "" →
        (getGitUserInfo nameRes emailRes).1 = jsTrim s) ∧
     ((nameRes = none ∨ ∃ s, nameRes = some s ∧ jsTrim s = "") →
        (getGitUserInfo nameRes emailRes).1 = unknownSentinel)) ∧
    ((∀ s, emailRes = some s → jsTrim s ≠ "" →
        (getGitUserInfo nameRes emailRes).2 = jsTrim s) ∧
     ((emailRes = none ∨ ∃ s, emailRes = some s ∧ jsTrim s = "") →
        (getGitUserInfo nameRes emailRes).2 = unknownSentinel)) ∧
    ((∀ s, regRes = some s → jsTrim s ≠ "" → getNpmRegistry regRes = jsTrim s) ∧
     ((regRes = none ∨ ∃ s, regRes = some s ∧ jsTrim s = "") →
        getNpmRegistry regRes = unknownSentinel)) := by
  have hname := execPromise_spec nameRes
  have hemail := execPromise_spec emailRes
  have hreg := execPromise_spec regRes
  refine ⟨⟨?_, ?_⟩, ⟨?_, ?_⟩, ⟨?_, ?_⟩⟩
  · exact fun s hs hne => hname.1 s hs hne
  · rintro (h | ⟨s, hs, he⟩)
    · exact hname.2.1 h
    · exact hname.2.2 s hs he
  · exact fun s hs hne => hemail.1 s hs hne
  · rintro (h | ⟨s, hs, he⟩)
    · exact hemail.2.1 h
    · exact hemail.2.2 s hs he
  · exact fun s hs hne => hreg.1 s hs hne
  · rintro (h | ⟨s, hs, he⟩)
    · exact hreg.2.1 h
    · exact hreg.2.2 s hs he

/-- What one add-profile flow (`customSetGitUserInfo`) does: the resulting
list, whether a save ran, the external commands attempted, whether the
duplicate warning was shown, and the confirmation message, if any. -/
structure CustomResult where
  users : List Profile
  saved : Bool
  gitCmds : List String
  npmCmd : Option NpmCmd
  warned : Bool
  message : Option String
deriving DecidableEq, Repr

/-- An aborted flow: nothing changes, nothing runs, nothing is shown. -/
def noMutation (users : List Profile) : CustomResult :=
  ⟨users, false, [], none, false, none⟩

/-- `customSetGitUserInfo` (src/index.ts lines 82-100): prompt for name,
email and optional registry (`none` stands for a cancelled prompt; a falsy
`!name` / `!email` answer aborts silently, an empty registry becomes
`undefined` through `registry || undefined`), warn and abort when the
(name, email) pair already exists, else apply via `setGitUserInfo`. -/
def customSetGitUserInfo (ext : ExtOutcomes)
    (nameIn emailIn registryIn : Option String)
    (users : List Profile) : CustomResult :=
  match nameIn with
  | none => noMutation users
  | some name =>
    if name == "" then noMutation users
    else
      match emailIn with
      | none => noMutation users
      | some email =>
        if email == "" then noMutation users
        else
          let registry : Option String :=
            match registryIn with
            | none => none
            | some r => if r == "" then none else some r
          if users.any (matchesKey name email) then
            ⟨users, false, [], none, true, none⟩
          else
            let a := setGitUserInfo ext name email registry users
            ⟨a.users, a.saved, a.gitCmds, a.npmCmd, false, a.message⟩

/-- Claim C8: when the entered (name, email) pair already exists in the
stored list, the add flow shows the duplicate warning and aborts before
apply — the list is unchanged, no save happens, and no external git or
registry command is attempted. -/
theorem customSet_duplicate_aborts (ext : ExtOutcomes)
    (nameIn emailIn registryIn : Option String) (users : List Profile)
    (name email : String)
    (hn : nameIn = some name) (hn2 : name ≠ "")
    (he : emailIn = some email) (he2 : email ≠ "")
    (hdup : users.any (matchesKey name email) = true) :
    customSetGitUserInfo ext nameIn emailIn registryIn users =
      ⟨users, false, [], none, true, none⟩ := by
  subst hn he
  unfold customSetGitUserInfo
  have hn3 : (name == "") = false := by
    simp [hn2]
  have he3 : (email == "") = false := by
    simp [he2]
  simp only [hn3, Bool.false_eq_true, if_false, he3, hdup, if_true]

/-- Witness for C8: adding the already-stored pair ("A", "a@x") over a
one-entry list warns and leaves everything untouched. -/
theorem customSet_duplicate_aborts_witness :
    customSetGitUserInfo ⟨true, true, true⟩ (some "A") (some "a@x")
        (some "taobao") [⟨"A", "a@x", none⟩] =
      ⟨[⟨"A", "a@x", none⟩], false, [], none, true, none⟩ :=
  customSet_duplicate_aborts ⟨true, true, true⟩ (some "A") (some "a@x")
    (some "taobao") [⟨"A", "a@x", none⟩] "A" "a@x"
    rfl (by decide) rfl (by decide) (by decide)

/-- The registry component of the status bar (src/index.ts lines 206-207):
`const currentUser = gitUsers.find(match); currentUser?.registry || registry`
— the matching profile's registry when that is truthy (present and
non-empty), else the live registry. -/
def registryDisplay (users : List Profile) (activeName activeEmail liveRegistry : String) :
    String :=
  match users.find? (matchesKey activeName activeEmail) with
  | some u =>
      match u.registry with
      | some r => if r != "" then r else liveRegistry
      | none => liveRegistry
  | none => liveRegistry

/-- `updateStatusBar` (src/index.ts lines 203-210): the compact summary
text built from the active name and the chosen registry component. -/
def updateStatusBar (users : List Profile) (activeName activeEmail liveRegistry : String) :
    String :=
  "$(github) " ++ activeName ++ " | $(package) " ++
    registryDisplay users activeName activeEmail liveRegistry

/-- Claim C9 (counterexample): a stored profile matching the active identity
with the empty string recorded as its registry — a recorded registry — is
passed over: the component falls back to the live registry, because the
source tests JavaScript truthiness, not presence. -/
theorem registryDisplay_counterexample :
    ([⟨"A", "a@x", some ""⟩] : List Profile).find? (matchesKey "A" "a@x") =
      some ⟨"A", "a@x", some ""⟩ ∧
    registryDisplay [⟨"A", "a@x", some ""⟩] "A" "a@x" "live-registry" =
      "live-registry" ∧
    ("live-registry" : String) ≠ "" := by
  refine ⟨by decide, by decide, by decide⟩

/-- Claim C9 (amended): the summary's registry component equals the stored
registry of the first profile matching the active (name, email) when such a
profile exists and has a non-empty registry recorded, and otherwise — no
match, no registry, or an empty-string registry — equals the live value. -/
theorem registryDisplay_cases (users : List Profile)
    (activeName activeEmail live : String) :
    (∀ u r, users.find? (matchesKey activeName activeEmail) = some u →
        u.registry = some r → r ≠ "" →
        registryDisplay users activeName activeEmail live = r) ∧
    (∀ u, users.find? (matchesKey activeName activeEmail) = some u →
        (u.registry = none ∨ u.registry = some "") →
        registryDisplay users activeName activeEmail live = live) ∧
    (users.find? (matchesKey activeName activeEmail) = none →
        registryDisplay users activeName activeEmail live = live) ∧
    updateStatusBar users activeName activeEmail live =
      "$(github) " ++ activeName ++ " | $(package) " ++
        registryDisplay users activeName activeEmail live := by
  refine ⟨?_, ?_, ?_, rfl⟩
  · intro u r hfind hreg hne
    simp [registryDisplay, hfind, hreg, hne]
  · intro u hfind hreg
    rcases hreg with h | h <;> simp [registryDisplay, hfind, h]
  · intro hfind
    simp [registryDisplay, hfind]

/-- The per-item delete handler of the picker (src/index.ts lines 160-181):
a delete is honoured only when the row carries a profile whose (name, email)
differs from the active identity captured when the picker opened; then the
list is filtered and saved. The returned flag records whether
`saveGitUsers` ran. -/
def deleteHandler (itemUser : Option Profile) (activeName activeEmail : String)
    (users : List Profile) : List Profile × Bool :=
  match itemUser with
  | none => (users, false)
  | some u =>
    if u.name != activeName || u.email != activeEmail then
      (users.filter (fun v => !(matchesKey u.name u.email v)), true)
    else
      (users, false)

/-- Claim C10: firing the delete handler on the row of the profile equal to
the captured active identity changes nothing: the list is returned as is and
no persistence write happens. -/
theorem deleteHandler_current_noop (itemUser : Option Profile)
    (activeName activeEmail : String) (users : List Profile) (u : Profile)
    (hu : itemUser = some u) (hn : u.name = activeName) (he : u.email = activeEmail) :
    deleteHandler itemUser activeName activeEmail users = (users, false) := by
  subst hu
  unfold deleteHandler
  simp [hn, he]

/-- Witness for C10: deleting the row of the active profile ("A", "a@x")
from a two-entry list is a no-op with no save. -/
theorem deleteHandler_current_noop_witness :
    deleteHandler (some ⟨"A", "a@x", none⟩) "A" "a@x"
        [⟨"A", "a@x", none⟩, ⟨"B", "b@x", some "taobao"⟩] =
      ([⟨"A", "a@x", none⟩, ⟨"B", "b@x", some "taobao"⟩], false) :=
  deleteHandler_current_noop (some ⟨"A", "a@x", none⟩) "A" "a@x"
    [⟨"A", "a@x", none⟩, ⟨"B", "b@x", some "taobao"⟩] ⟨"A", "a@x", none⟩
    rfl rfl rfl

end GitUserConfig
